import Mathlib

/-!
Verification of the nilsbohr code-to-world pipeline (backend crate).

This file shallowly embeds the data model (`src/backend/src/models.rs`),
the symbol table and resolver (`src/backend/src/symbol_table.rs`), and the
world generation pipeline (`src/backend/src/parser.rs`) of the repository,
together with the value-hint truncation closures of the per-language
extractors (`src/backend/src/languages/*.rs`), and proves or refutes the
frozen specification claims about them.

Modelling conventions:
* Rust `String` is Lean `String`; `u32`/`usize` counters are `Nat`
  (no overflow is relevant at the sizes involved);
* `f32` arithmetic of the complexity score is modelled by exact `Rat`
  arithmetic (the claims constrain only the formula shape and the
  `[1, 10]` clamp, both of which are arithmetic-model independent);
* `HashMap` is modelled by association lists: lookup takes the first
  matching key and insertion prepends, which realises the overwrite
  semantics of `HashMap::insert`; iteration order (which is random per
  `HashMap` instance in Rust) is modelled by insertion order, one of the
  realisable orders, and where a claim depends on iteration order the
  pipeline is evaluated at two different realisable orders;
* tree-sitter extraction is external to the crate, so the pipeline is
  embedded from the point where `generate_world` owns the per-file parse
  results (`ParsedFile` values); the extractor-level claims are settled
  against the extractor code that is in the repository (ID composition,
  value-hint truncation).
-/

namespace NB

/-- Mirrors `models.rs` `Parameter`. -/
structure Parameter where
  name : String
  datatype : String
deriving Repr, DecidableEq

/-- Mirrors `models.rs` `CityStats`. -/
structure CityStats where
  building_count : Nat
  room_count : Nat
  artifact_count : Nat
  loc : Nat
deriving Repr, DecidableEq

/-- Mirrors `models.rs` `WorldMeta`; `complexity_score : f32` is modelled by `Rat`. -/
structure WorldMeta where
  total_cities : Nat
  total_buildings : Nat
  total_rooms : Nat
  total_artifacts : Nat
  dominant_language : String
  complexity_score : Rat
deriving Repr

/-- Mirrors `models.rs` `RouteType`. -/
inductive RouteType where
| functionCall
| importEdge
| inheritance
| networkRequest
| typeReference
deriving Repr, DecidableEq

/-- Mirrors `models.rs` `Route`; the always-`None` `serde_json` metadata is `Option Unit`. -/
structure Route where
  id : String
  from_id : String
  to_id : String
  route_type : RouteType
  bidirectional : Bool
  metadata : Option Unit
deriving Repr, DecidableEq

/-- Mirrors the `models.rs` `GameEntity` tagged union (field order follows the source). -/
inductive Entity where
| city (id name language theme : String) (entry_point_id : Option String)
    (stats : CityStats) (children : List Entity)
| district (id name path : String) (children : List Entity)
| building (id name building_type : String) (is_public : Bool) (loc : Nat)
    (imports : List String) (children : List Entity)
    (metadata : Option (List (String × String)))
| room (id name room_type : String) (is_main is_async : Bool) (visibility : String)
    (complexity loc : Nat) (parameters : List Parameter) (return_type : Option String)
    (calls : List String) (children : List Entity)
    (metadata : Option (List (String × String)))
| artifact (id name artifact_type datatype : String) (is_mutable : Bool)
    (value_hint : Option String) (metadata : Option (List (String × String)))
deriving Repr

/-- Mirrors `models.rs` `WorldSeed`. -/
structure WorldSeed where
  world_meta : WorldMeta
  cities : List Entity
  highways : List Route
deriving Repr

/-- The entity's `id` field. -/
def Entity.idOf : Entity → String
| .city id _ _ _ _ _ _ => id
| .district id _ _ _ => id
| .building id _ _ _ _ _ _ _ => id
| .room id _ _ _ _ _ _ _ _ _ _ _ _ => id
| .artifact id _ _ _ _ _ _ => id

/-- The entity's `children` list (empty for artifacts). -/
def Entity.childrenOf : Entity → List Entity
| .city _ _ _ _ _ _ cs => cs
| .district _ _ _ cs => cs
| .building _ _ _ _ _ _ cs _ => cs
| .room _ _ _ _ _ _ _ _ _ _ _ cs _ => cs
| .artifact _ _ _ _ _ _ _ => []

/-- The entry-point field of a city, and `none` for the other variants. -/
def Entity.entryOf : Entity → Option String
| .city _ _ _ _ e _ _ => e
| _ => none

/-- The stats field of a city, and `none` for the other variants. -/
def Entity.statsOf : Entity → Option CityStats
| .city _ _ _ _ _ st _ => some st
| _ => none

/-- True exactly for `Building` entities whose `building_type` is the string `file`. -/
def Entity.isFileBuilding : Entity → Bool
| .building _ _ bt _ _ _ _ _ => bt = "file"
| _ => false

/-- True exactly for `Building` entities. -/
def Entity.isBuilding : Entity → Bool
| .building _ _ _ _ _ _ _ _ => true
| _ => false

/-- The counting result of `GameEntity::count_entities` in `models.rs`:
buildings, rooms, artifacts, aggregated loc. -/
structure Counts where
  b : Nat
  r : Nat
  a : Nat
  l : Nat
deriving Repr, DecidableEq

def Counts.zero : Counts := ⟨0, 0, 0, 0⟩

def Counts.add (x y : Counts) : Counts := ⟨x.b + y.b, x.r + y.r, x.a + y.a, x.l + y.l⟩

mutual

/-- Embeds `GameEntity::count_entities` (`models.rs`): a Building counts as one
building plus its children's aggregate and adds its own `loc`; a Room likewise
for rooms; City and District only aggregate children; an Artifact is one artifact. -/
def countEntities : Entity → Counts
| .city _ _ _ _ _ _ cs => countEntitiesL cs
| .district _ _ _ cs => countEntitiesL cs
| .building _ _ _ _ loc _ cs _ =>
    let x := countEntitiesL cs
    ⟨1 + x.b, x.r, x.a, loc + x.l⟩
| .room _ _ _ _ _ _ _ loc _ _ _ cs _ =>
    let x := countEntitiesL cs
    ⟨x.b, 1 + x.r, x.a, loc + x.l⟩
| .artifact _ _ _ _ _ _ _ => ⟨0, 0, 1, 0⟩

/-- Folds `countEntities` over a list, as the fold in `generate_world` does. -/
def countEntitiesL : List Entity → Counts
| [] => Counts.zero
| c :: cs => (countEntities c).add (countEntitiesL cs)

end

mutual

/-- Embeds `GameEntity::collect_calls` (`models.rs`): every Room contributes one
`(room id, raw callee)` pair per entry of `calls`, recursing into children. -/
def collectCalls : Entity → List (String × String)
| .city _ _ _ _ _ _ cs => collectCallsL cs
| .district _ _ _ cs => collectCallsL cs
| .building _ _ _ _ _ _ cs _ => collectCallsL cs
| .room id _ _ _ _ _ _ _ _ _ calls cs _ =>
    calls.map (fun t => (id, t)) ++ collectCallsL cs
| .artifact _ _ _ _ _ _ _ => []

def collectCallsL : List Entity → List (String × String)
| [] => []
| c :: cs => collectCalls c ++ collectCallsL cs

end

mutual

/-- Embeds `GameEntity::collect_imports` (`models.rs`): every Building contributes
one `(building id, raw import)` pair per entry of `imports`. -/
def collectImports : Entity → List (String × String)
| .city _ _ _ _ _ _ cs => collectImportsL cs
| .district _ _ _ cs => collectImportsL cs
| .building id _ _ _ _ imports cs _ =>
    imports.map (fun t => (id, t)) ++ collectImportsL cs
| .room _ _ _ _ _ _ _ _ _ _ _ cs _ => collectImportsL cs
| .artifact _ _ _ _ _ _ _ => []

def collectImportsL : List Entity → List (String × String)
| [] => []
| c :: cs => collectImports c ++ collectImportsL cs

end

mutual

/-- Specification-side collector: the IDs of every Room and Building in the tree
(the entities the symbol table indexes). -/
def rbIds : Entity → List String
| .city _ _ _ _ _ _ cs => rbIdsL cs
| .district _ _ _ cs => rbIdsL cs
| .building id _ _ _ _ _ cs _ => id :: rbIdsL cs
| .room id _ _ _ _ _ _ _ _ _ _ cs _ => id :: rbIdsL cs
| .artifact _ _ _ _ _ _ _ => []

def rbIdsL : List Entity → List String
| [] => []
| c :: cs => rbIds c ++ rbIdsL cs

end

/-! ### Kernel-computable string utilities

Rust `str::split`, `str::replace`, `str::starts_with` and integer formatting
are re-implemented by structural recursion over the character list so that a
witness can be checked by kernel reduction (the corresponding core-library
`String` functions use well-founded recursion, which does not reduce). -/

/-- Splitting worker for the separator `::`: scan left to right, cutting at
each (non-overlapping) occurrence, like Rust `str::split("::")`. -/
def splitColonsAux : List Char → List Char → List (List Char)
| [], acc => [acc.reverse]
| [c], acc => [(c :: acc).reverse]
| c1 :: c2 :: rest, acc =>
    if c1 = ':' && c2 = ':' then acc.reverse :: splitColonsAux rest []
    else splitColonsAux (c2 :: rest) (c1 :: acc)

/-- Rust `id.split("::")` collected into a list. -/
def splitColons (s : String) : List String :=
  (splitColonsAux s.data []).map String.mk

/-- Splitting worker for the separator `/`. -/
def splitSlashAux : List Char → List Char → List (List Char)
| [], acc => [acc.reverse]
| c :: rest, acc =>
    if c = '/' then acc.reverse :: splitSlashAux rest []
    else splitSlashAux rest (c :: acc)

/-- Rust `s.split('/')` collected into a list. -/
def splitSlash (s : String) : List String :=
  (splitSlashAux s.data []).map String.mk

/-- Rust `str::starts_with` on strings. -/
def startsWithStr (s pre : String) : Bool := pre.data.isPrefixOf s.data

/-- Rust `path.replace('/', "_")`: a character-to-character replacement. -/
def replaceSlashUnderscore (s : String) : String :=
  String.mk (s.data.map (fun ch => if ch = '/' then '_' else ch))

def digitChar : Nat → Char
| 0 => '0'
| 1 => '1'
| 2 => '2'
| 3 => '3'
| 4 => '4'
| 5 => '5'
| 6 => '6'
| 7 => '7'
| 8 => '8'
| 9 => '9'
| _ => '?'

/-- Decimal digits of `n`, with structural fuel (`fuel > n` suffices). -/
def natDigits : Nat → Nat → List Char
| 0, _ => []
| fuel + 1, n => if n < 10 then [digitChar n] else natDigits fuel (n / 10) ++ [digitChar (n % 10)]

/-- Decimal rendering of a natural number (Rust `format!` of an integer). -/
def natToStr (n : Nat) : String := String.mk (natDigits (n + 1) n)

/-! ### Symbol table (`symbol_table.rs`) -/

/-- The `SymbolTable` of `symbol_table.rs`: `symbols` is the exact/semi-qualified
`HashMap<String, String>`, `index` the short-name `HashMap<String, Vec<String>>`.
Both are association lists; lookup takes the first matching key and insertion
prepends, which is observationally `HashMap::insert` overwrite semantics. -/
structure SymTable where
  symbols : List (String × String)
  index : List (String × List String)
deriving Repr

def SymTable.empty : SymTable := ⟨ [], [] ⟩

/-- First-match association-list lookup (models `HashMap::get`). -/
def lookupA : List (String × String) → String → Option String
| [], _ => none
| (k, v) :: rest, key => if k = key then some v else lookupA rest key

/-- First-match lookup in the short-name index (models `HashMap::get`). -/
def lookupIdx : List (String × List String) → String → Option (List String)
| [], _ => none
| (k, v) :: rest, key => if k = key then some v else lookupIdx rest key

/-- Models `HashMap::insert` (prepend; first-match lookup makes it an overwrite). -/
def insertA (l : List (String × String)) (k v : String) : List (String × String) :=
  (k, v) :: l

/-- Models `self.index.entry(name).or_default().push(id)`: append `v` to the
vector at `k`, creating a one-element vector for a fresh key. -/
def pushIdx : List (String × List String) → String → String → List (String × List String)
| [], k, v => [(k, [v])]
| (k2, vs) :: rest, k, v =>
    if k2 = k then (k2, vs ++ [v]) :: rest else (k2, vs) :: pushIdx rest k v

/-- Embeds the semi-qualified key computation of `SymbolTable::index_entity`:
`id.rsplit("::").nth(1)` is the penultimate `::`-segment, and its last
`/`-segment is glued to the name; `none` when the ID has no `::`. -/
def semiQualKey (id name : String) : Option String :=
  match (splitColons id).reverse with
  | _ :: parentSeg :: _ =>
      some (((splitSlash parentSeg).getLastD "") ++ "::" ++ name)
  | _ => none

/-- The three insertions `index_entity` performs for one Room or Building. -/
def indexRB (st : SymTable) (id name : String) : SymTable :=
  let st1 : SymTable := ⟨insertA st.symbols id id, st.index⟩
  let st2 : SymTable := ⟨st1.symbols, pushIdx st1.index name id⟩
  match semiQualKey id name with
  | some q => ⟨insertA st2.symbols q id, st2.index⟩
  | none => st2

mutual

/-- Embeds `SymbolTable::index_entity`: Rooms and Buildings are indexed by full
ID, short name and semi-qualified key, then children are indexed; City and
District only recurse; Artifacts are ignored. -/
def indexEntity (st : SymTable) : Entity → SymTable
| .city _ _ _ _ _ _ cs => indexEntityL st cs
| .district _ _ _ cs => indexEntityL st cs
| .building id name _ _ _ _ cs _ => indexEntityL (indexRB st id name) cs
| .room id name _ _ _ _ _ _ _ _ _ cs _ => indexEntityL (indexRB st id name) cs
| .artifact _ _ _ _ _ _ _ => st

def indexEntityL (st : SymTable) : List Entity → SymTable
| [] => st
| c :: cs => indexEntityL (indexEntity st c) cs

end

/-- Embeds `SymbolTable::index_cities`. -/
def indexCities (cities : List Entity) : SymTable :=
  indexEntityL SymTable.empty cities

/-- Character-level common prefix of two char lists (the `take_while` count). -/
def cplChars : List Char → List Char → Nat
| x :: xs, y :: ys => if x = y then cplChars xs ys + 1 else 0
| _, _ => 0

/-- Embeds `common_prefix_len` (`symbol_table.rs`): the number of leading
character positions on which the two strings agree. -/
def commonPrefixLen (a b : String) : Nat := cplChars a.data b.data

/-- Models Rust `Iterator::max_by_key`, which returns the LAST element among
equal maxima. -/
def maxByKeyLast (f : α → Nat) (l : List α) : Option α :=
  l.foldl (fun acc x =>
    match acc with
    | none => some x
    | some y => if f y ≤ f x then some x else some y) none

/-- Embeds `SymbolTable::resolve`: exact/semi-qualified map first, then the
context-qualified key, then the short-name index (single candidate, else
`max_by_key` of the common prefix length with the context). -/
def resolve (st : SymTable) (symbol ctx : String) : Option String :=
  match lookupA st.symbols symbol with
  | some id => some id
  | none =>
    match lookupA st.symbols (ctx ++ "::" ++ symbol) with
    | some id => some id
    | none =>
      match lookupIdx st.index symbol with
      | some cands =>
          match cands with
          | [c] => some c
          | _ => maxByKeyLast (fun c => commonPrefixLen c ctx) cands
      | none => none

/-! ### Entry point search (`parser.rs::find_entry_point`) -/

mutual

/-- One child step of `find_entry_point`: descend into Building and District
children; report a Room when `is_main`; skip everything else (in particular the
children of Rooms are never visited). -/
def entrySearch : Entity → Option String
| .building _ _ _ _ _ _ cs _ => findEntryPoint cs
| .district _ _ _ cs => findEntryPoint cs
| .room id _ _ is_main _ _ _ _ _ _ _ _ _ => if is_main then some id else none
| _ => none

/-- Embeds `find_entry_point` (`parser.rs`). -/
def findEntryPoint : List Entity → Option String
| [] => none
| c :: rest =>
    match entrySearch c with
    | some id => some id
    | none => findEntryPoint rest

end

/-! ### Hierarchy reconstruction (`parser.rs::reconstruct_hierarchy`) -/

/-- Mirrors the `DirNode` helper of `parser.rs`; `subdirs` models the
`HashMap<String, DirNode>` as an association list in insertion order. -/
inductive DirNode where
| mk (name path : String) (files : List Entity) (subdirs : List (String × DirNode))

def DirNode.files : DirNode → List Entity
| .mk _ _ fs _ => fs

def DirNode.subdirs : DirNode → List (String × DirNode)
| .mk _ _ _ sd => sd

/-- Models `entry(part).or_insert_with(new)` followed by in-place modification:
apply `f` to the node at key `k`, inserting `f dflt` when the key is absent. -/
def updateSubdir : List (String × DirNode) → String → DirNode → (DirNode → DirNode) →
    List (String × DirNode)
| [], k, dflt, f => [(k, f dflt)]
| (k2, v) :: rest, k, dflt, f =>
    if k2 = k then (k2, f v) :: rest else (k2, v) :: updateSubdir rest k dflt f

/-- Embeds the directory-navigation loop of `reconstruct_hierarchy`: walk the
parent path segments, creating `DirNode`s with incrementally extended paths,
and append the file entity to the leaf node's `files`. -/
def DirNode.insertAt : DirNode → String → List String → Entity → DirNode
| .mk name path fs sd, _, [], ent => .mk name path (fs ++ [ent]) sd
| .mk name path fs sd, curPath, p :: rest, ent =>
    let newPath := if curPath = "" then p else curPath ++ "/" ++ p
    .mk name path fs
      (updateSubdir sd p (.mk p newPath [] [])
        (fun d => d.insertAt newPath rest ent))

mutual

/-- Embeds `DirNode::to_entity`: a District whose `id` is `district_` plus the
path with `/` replaced by `_`, children being the files then the sub-districts. -/
def DirNode.toEntity : DirNode → Entity
| .mk name path fs sd =>
    .district ( "district_" ++ replaceSlashUnderscore path) name path (fs ++ subdirsToEntities sd)

def subdirsToEntities : List (String × DirNode) → List Entity
| [] => []
| (_, d) :: rest => d.toEntity :: subdirsToEntities rest

end

/-- The `ParsedFile` helper of `parser.rs` (post-extraction per-file result). -/
structure ParsedFile where
  language : String
  entity : Entity
  loc : Nat

/-- One iteration of the file loop in `reconstruct_hierarchy`: only Building
entities are inserted; the parent directories are the `/`-segments of the ID
except the last. -/
def addFileToRoot (root : DirNode) (f : ParsedFile) : DirNode :=
  match f.entity with
  | .building id _ _ _ _ _ _ _ =>
      root.insertAt "" ((splitSlash id).dropLast) f.entity
  | _ => root

/-- Embeds `reconstruct_hierarchy`: fold the files into a root `DirNode`, then
return the root's files followed by its sub-districts (no wrapping district). -/
def reconstructHierarchy (files : List ParsedFile) : List Entity :=
  let root := files.foldl addFileToRoot (.mk "root" "" [] [])
  root.files ++ subdirsToEntities root.subdirs

/-! ### World assembly (`parser.rs::generate_world`) -/

/-- Embeds `get_city_theme`. -/
def getCityTheme (lang : String) : String :=
  if lang = "rs" then "industrial"
  else if lang = "ts" ∨ lang = "tsx" then "neon"
  else if lang = "js" ∨ lang = "jsx" then "retro"
  else if lang = "py" then "nature"
  else if lang = "go" then "minimalist"
  else if lang = "cpp" ∨ lang = "cc" ∨ lang = "cxx" ∨ lang = "hpp" then "mechanical"
  else if lang = "c" ∨ lang = "h" then "assembly"
  else if lang = "java" then "enterprise"
  else "default"

/-- Embeds `get_city_name`. -/
def getCityName (lang : String) : String :=
  if lang = "rs" then "Rustopolis"
  else if lang = "ts" ∨ lang = "tsx" then "Typescriptia"
  else if lang = "js" ∨ lang = "jsx" then "Javascriptura"
  else if lang = "py" then "Pythonia"
  else if lang = "go" then "Golangton"
  else if lang = "cpp" ∨ lang = "cc" ∨ lang = "cxx" ∨ lang = "hpp" then "Cppolis"
  else if lang = "c" ∨ lang = "h" then "Cville"
  else if lang = "java" then "Javapolis"
  else "Unknown Lands"

/-- The per-language city construction of the `generate_world` loop body:
hierarchy reconstruction, stats fold, entry-point search. -/
def mkCity (lang : String) (files : List ParsedFile) : Entity :=
  let ch := reconstructHierarchy files
  let t := countEntitiesL ch
  .city ( "city_" ++ lang) (getCityName lang) lang (getCityTheme lang)
    (findEntryPoint ch)
    ⟨t.b, t.r, t.a, t.l⟩
    ch

/-- The raw route sources of one city, calls before imports, as collected in
the `generate_world` loop. -/
def cityRoutePairs (city : Entity) : List (String × String × RouteType) :=
  (collectCalls city).map (fun p => (p.1, p.2, RouteType.functionCall)) ++
  (collectImports city).map (fun p => (p.1, p.2, RouteType.importEdge))

/-- Embeds the `route_counter` numbering: IDs are `route_<n>` in collection order. -/
def numberRoutes : Nat → List (String × String × RouteType) → List Route
| _, [] => []
| n, (f, t, ty) :: rest =>
    { id := "route_" ++ natToStr n, from_id := f, to_id := t, route_type := ty,
      bidirectional := false, metadata := none } :: numberRoutes (n + 1) rest

/-- Per-language summed file LOC, in group iteration order (`lang_loc`). -/
def langLocPairs (groups : List (String × List ParsedFile)) : List (String × Nat) :=
  groups.map (fun g => (g.1, (g.2.map ParsedFile.loc).sum))

/-- Embeds `calculate_complexity_score` (`parser.rs`), with `f32` modelled by
`Rat`: `clamp(min(buildings/10, 3) + min(rooms/50, 4) + min(routes/100, 3), 1, 10)`. -/
def calculateComplexityScore (buildings rooms routes : Nat) : Rat :=
  let building_score := min ((buildings : Rat) / 10) 3
  let room_score := min ((rooms : Rat) / 50) 4
  let route_score := min ((routes : Rat) / 100) 3
  max 1 (min (building_score + room_score + route_score) 10)

/-- Embeds the resolution phase of `generate_world`: routes whose `to_id`
resolves are kept with the rewritten target, the rest are dropped. -/
def resolveRoutes (tbl : SymTable) (routes : List Route) : List Route :=
  routes.filterMap (fun r =>
    (resolve tbl r.to_id r.from_id).map (fun v => { r with to_id := v }))

/-- Embeds `generate_world` from the point where the per-file parse results are
grouped by language. The group list stands for one realisable iteration order
of the `city_map` / `lang_loc` hash maps (their order is arbitrary in Rust). -/
def generateWorldG (groups : List (String × List ParsedFile)) : WorldSeed :=
  let cities := groups.map (fun g => mkCity g.1 g.2)
  let allRoutes := numberRoutes 0 (cities.flatMap cityRoutePairs)
  let tbl := indexCities cities
  let resolved := resolveRoutes tbl allRoutes
  let totals := countEntitiesL cities
  let dominant :=
    match maxByKeyLast (fun p => p.2) (langLocPairs groups) with
    | some p => p.1
    | none => ""
  { world_meta :=
      { total_cities := cities.length
        total_buildings := totals.b
        total_rooms := totals.r
        total_artifacts := totals.a
        dominant_language := dominant
        complexity_score := calculateComplexityScore totals.b totals.r resolved.length }
    cities := cities
    highways := resolved }

/-! ### Value-hint truncation closures of the extractors -/

/-- UTF-8 encoded size of one character. -/
def csize (c : Char) : Nat :=
  if c.toNat < 0x80 then 1
  else if c.toNat < 0x800 then 2
  else if c.toNat < 0x10000 then 3
  else 4

/-- Rust `str::len`: the UTF-8 byte length. -/
def utf8Len (s : String) : Nat := (s.data.map csize).sum

/-- Embeds the value-hint closure shared by `rs_parser.rs`, `py_parser.rs`,
`java_parser.rs` and `js_parser.rs`: when the byte length exceeds 30, keep the
first 27 characters and append an ellipsis. -/
def truncateHint30 (val : String) : String :=
  if utf8Len val > 30 then String.mk (val.data.take 27) ++ "..." else val

/-- Models Rust byte slicing `&text[..n]`: `some` of the characters spanning
the first `n` bytes when `n` is a char boundary, `none` (a panic) otherwise. -/
def takeBytesChars : Nat → List Char → Option (List Char)
| 0, _ => some []
| _ + 1, [] => none
| n + 1, c :: cs =>
    if csize c ≤ n + 1 then (takeBytesChars (n + 1 - csize c) cs).map (fun l => c :: l)
    else none

/-- Embeds the value-hint closure of `ts_parser.rs` (lines 408-415): when the
byte length exceeds 40, slice the first 37 BYTES (`&text[..37]`, which panics
on a non-boundary, modelled by `none`) and append an ellipsis. -/
def tsHint (text : String) : Option String :=
  if utf8Len text > 40 then
    (takeBytesChars 37 text.data).map (fun cs => String.mk cs ++ "...")
  else some text

/-- Embeds the enumerator value-hint of `c_parser.rs` `parse_enum_values`
(lines 386-388): the raw initializer node text, with no truncation and no
ellipsis. -/
def cEnumValueHint (text : String) : String := text

/-! ### Specification-side definitions

These follow the wording of the specification claims, to be compared with the
embedded program functions. -/

mutual

/-- Specification count: the number of Building entities in the tree. -/
def numBuildings : Entity → Nat
| .city _ _ _ _ _ _ cs => numBuildingsL cs
| .district _ _ _ cs => numBuildingsL cs
| .building _ _ _ _ _ _ cs _ => 1 + numBuildingsL cs
| .room _ _ _ _ _ _ _ _ _ _ _ cs _ => numBuildingsL cs
| .artifact _ _ _ _ _ _ _ => 0

def numBuildingsL : List Entity → Nat
| [] => 0
| c :: cs => numBuildings c + numBuildingsL cs

end

mutual

/-- Specification count: the number of Room entities in the tree. -/
def numRooms : Entity → Nat
| .city _ _ _ _ _ _ cs => numRoomsL cs
| .district _ _ _ cs => numRoomsL cs
| .building _ _ _ _ _ _ cs _ => numRoomsL cs
| .room _ _ _ _ _ _ _ _ _ _ _ cs _ => 1 + numRoomsL cs
| .artifact _ _ _ _ _ _ _ => 0

def numRoomsL : List Entity → Nat
| [] => 0
| c :: cs => numRooms c + numRoomsL cs

end

mutual

/-- Specification count: the number of Artifact entities in the tree. -/
def numArtifacts : Entity → Nat
| .city _ _ _ _ _ _ cs => numArtifactsL cs
| .district _ _ _ cs => numArtifactsL cs
| .building _ _ _ _ _ _ cs _ => numArtifactsL cs
| .room _ _ _ _ _ _ _ _ _ _ _ cs _ => numArtifactsL cs
| .artifact _ _ _ _ _ _ _ => 1

def numArtifactsL : List Entity → Nat
| [] => 0
| c :: cs => numArtifacts c + numArtifactsL cs

end

mutual

/-- Specification sum: the summed `loc` fields of the Building entities. -/
def bLocSum : Entity → Nat
| .city _ _ _ _ _ _ cs => bLocSumL cs
| .district _ _ _ cs => bLocSumL cs
| .building _ _ _ _ loc _ cs _ => loc + bLocSumL cs
| .room _ _ _ _ _ _ _ _ _ _ _ cs _ => bLocSumL cs
| .artifact _ _ _ _ _ _ _ => 0

def bLocSumL : List Entity → Nat
| [] => 0
| c :: cs => bLocSum c + bLocSumL cs

end

mutual

/-- Specification sum: the summed `loc` fields of the Room entities. -/
def rLocSum : Entity → Nat
| .city _ _ _ _ _ _ cs => rLocSumL cs
| .district _ _ _ cs => rLocSumL cs
| .building _ _ _ _ _ _ cs _ => rLocSumL cs
| .room _ _ _ _ _ _ _ loc _ _ _ cs _ => loc + rLocSumL cs
| .artifact _ _ _ _ _ _ _ => 0

def rLocSumL : List Entity → Nat
| [] => 0
| c :: cs => rLocSum c + rLocSumL cs

end

mutual

/-- Specification traversal for the amended entry-point claim: the IDs of all
`is_main` Rooms in pre-order, descending into District and Building children
but not into the children of Rooms. -/
def mainsRestricted : Entity → List String
| .building _ _ _ _ _ _ cs _ => mainsRestrictedL cs
| .district _ _ _ cs => mainsRestrictedL cs
| .room id _ _ is_main _ _ _ _ _ _ _ _ _ => if is_main then [id] else []
| _ => []

def mainsRestrictedL : List Entity → List String
| [] => []
| c :: cs => mainsRestricted c ++ mainsRestrictedL cs

end

mutual

/-- Specification predicate of the original entry-point claim: whether the tree
contains any Room with `is_main = true`, under a full traversal. -/
def containsMainRoom : Entity → Bool
| .city _ _ _ _ _ _ cs => containsMainRoomL cs
| .district _ _ _ cs => containsMainRoomL cs
| .building _ _ _ _ _ _ cs _ => containsMainRoomL cs
| .room _ _ _ is_main _ _ _ _ _ _ _ cs _ => is_main || containsMainRoomL cs
| .artifact _ _ _ _ _ _ _ => false

def containsMainRoomL : List Entity → Bool
| [] => false
| c :: cs => containsMainRoom c || containsMainRoomL cs

end

mutual

/-- The parent-child edges of an entity tree. -/
def edgesE : Entity → List (Entity × Entity)
| .city a b c d e f cs => edgesL (Entity.city a b c d e f cs) cs
| .district a b c cs => edgesL (Entity.district a b c cs) cs
| .building a b c d e f cs g => edgesL (Entity.building a b c d e f cs g) cs
| .room a b c d e f g h i j k cs l => edgesL (Entity.room a b c d e f g h i j k cs l) cs
| .artifact _ _ _ _ _ _ _ => []

def edgesL (parent : Entity) : List Entity → List (Entity × Entity)
| [] => []
| c :: cs => (parent, c) :: (edgesE c ++ edgesL parent cs)

end

mutual

/-- The within-file ID discipline of every extractor: each child's ID is the
parent's ID followed by `::` and a local name, recursively
(`format!("\x7b\x7d::\x7b\x7d", parent_id, name)` in all `languages/*.rs`). -/
def idChainOk : Entity → Bool
| .city a _ _ _ _ _ cs => idChainL a cs
| .district a _ _ cs => idChainL a cs
| .building a _ _ _ _ _ cs _ => idChainL a cs
| .room a _ _ _ _ _ _ _ _ _ _ cs _ => idChainL a cs
| .artifact _ _ _ _ _ _ _ => true

def idChainL (pid : String) : List Entity → Bool
| [] => true
| c :: cs => (startsWithStr c.idOf (pid ++ "::") && idChainOk c) && idChainL pid cs

end

mutual

/-- Invariant of the directory trie: every stored file entity is a file
Building satisfying the within-file ID discipline. -/
def goodDir : DirNode → Bool
| .mk _ _ fs sd => fs.all (fun f => f.isFileBuilding && idChainOk f) && goodSubs sd

def goodSubs : List (String × DirNode) → Bool
| [] => true
| (_, d) :: rest => goodDir d && goodSubs rest

end

/-- All values reachable through the symbol table (map values and index
vector entries). -/
def tableVals (st : SymTable) : List String :=
  st.symbols.map Prod.snd ++ (st.index.map Prod.snd).flatten

/-- Whether `x` attains the maximum of `f` over the list `l`. -/
def isMaxIn (f : α → Nat) (l : List α) (x : α) : Bool :=
  (l.map f).all (fun n => n ≤ f x)

/-- The first element attaining the maximum of `f`: the claim's stated
tie-break (first candidate in iteration order). -/
def firstMaxBy (f : α → Nat) (l : List α) : Option α :=
  (l.filter (isMaxIn f l)).head?

/-- The last element attaining the maximum of `f`: the tie-break the code
actually implements via `max_by_key`. -/
def lastMaxBy (f : α → Nat) (l : List α) : Option α :=
  (l.filter (isMaxIn f l)).getLast?

/-- The resolution procedure exactly as claim C2 words it: a known full ID
resolves to itself; else the context-qualified ID when known; else the
short-name candidates with the FIRST longest-common-prefix candidate on ties;
else failure. -/
def resolveClaimed (known : List String) (shortMap : String → Option (List String))
    (S C : String) : Option String :=
  if S ∈ known then some S
  else if (C ++ "::" ++ S) ∈ known then some (C ++ "::" ++ S)
  else
    match shortMap S with
    | some cands =>
        match cands with
        | [c] => some c
        | _ => firstMaxBy (fun c => commonPrefixLen c C) cands
    | none => none

/-- The amended resolution specification: lookups go through the combined
exact/semi-qualified map, and among short-name candidates the LAST one with
the longest common character prefix against the context is chosen. -/
def resolveSpecLast (st : SymTable) (S C : String) : Option String :=
  match lookupA st.symbols S with
  | some v => some v
  | none =>
    match lookupA st.symbols (C ++ "::" ++ S) with
    | some v => some v
    | none =>
      match lookupIdx st.index S with
      | some cands => lastMaxBy (fun c => commonPrefixLen c C) cands
      | none => none

/-! ### Concrete inputs used by witnesses and counterexamples -/

/-- Scenario: `src/main.rs` with `fn main` calling `helper` (spec scenario 1). -/
def fileMainRs : ParsedFile :=
  ⟨ "rs",
    .building "src/main.rs" "main.rs" "file" true 3 []
      [ .room "src/main.rs::main" "main" "function" true false "private" 1 1 [] none
          [ "helper" ] [] none,
        .room "src/main.rs::helper" "helper" "function" false false "private" 1 1 [] none
          [] [] none ]
      none,
    3 ⟩

def groupsMainRs : List (String × List ParsedFile) := [( "rs", [fileMainRs])]

/-- A file `<dir>/<base>` defining a single function `foo` (spec scenario 4). -/
def fileWithFoo (dir base : String) : ParsedFile :=
  ⟨ "rs",
    .building (dir ++ "/" ++ base) base "file" true 1 []
      [ .room (dir ++ "/" ++ base ++ "::foo") "foo" "function" false false "private"
          1 1 [] none [] [] none ]
      none,
    1 ⟩

/-- A file `zz/caller.rs` whose `main` calls the ambiguous short name `foo`. -/
def fileCallerFoo : ParsedFile :=
  ⟨ "rs",
    .building "zz/caller.rs" "caller.rs" "file" true 1 []
      [ .room "zz/caller.rs::main" "main" "function" true false "private" 1 1 [] none
          [ "foo" ] [] none ]
      none,
    1 ⟩

def groupsAmbiguous : List (String × List ParsedFile) :=
  [( "rs", [fileWithFoo "aa" "x.rs", fileWithFoo "ab" "y.rs", fileCallerFoo])]

/-- A file Building of 10 lines containing a Room of 4 lines. -/
def fileLocNested : ParsedFile :=
  ⟨ "rs",
    .building "a.rs" "a.rs" "file" true 10 []
      [ .room "a.rs::f" "f" "function" false false "private" 1 4 [] none [] [] none ]
      none,
    10 ⟩

def groupsLocNested : List (String × List ParsedFile) := [( "rs", [fileLocNested])]

/-- A file whose only `is_main` Room is nested inside a non-main Room
(e.g. Rust `fn outer` containing a nested `fn main`, which `rs_parser.rs`
emits as a Room child of the outer Room). -/
def fileNestedMain : ParsedFile :=
  ⟨ "rs",
    .building "a.rs" "a.rs" "file" true 2 []
      [ .room "a.rs::outer" "outer" "function" false false "private" 1 1 [] none []
          [ .room "a.rs::outer::main" "main" "function" true false "private" 1 1 [] none
              [] [] none ]
          none ]
      none,
    2 ⟩

def groupsNestedMain : List (String × List ParsedFile) := [( "rs", [fileNestedMain])]

/-- A Python file of 3 lines (no entities), for the dominant-language tie. -/
def filePy : ParsedFile := ⟨ "py", .building "a.py" "a.py" "file" true 3 [] [] none, 3 ⟩

/-- Two language groups with equal summed LOC, in one hash-map iteration order. -/
def groupsTie : List (String × List ParsedFile) := [( "rs", [fileMainRs]), ( "py", [filePy])]

/-- The same two groups in the other iteration order. -/
def groupsTieRev : List (String × List ParsedFile) := groupsTie.reverse

/-- A 35-character ASCII initializer text. -/
def text35 : String := "aaaaaaaaaaaaaaaaaaaaaaaaaaaaaaaaaaa"

/-- A TypeScript string-literal initializer of 51 UTF-8 bytes whose byte 37 is
not a character boundary: a quote, an `a`, then 24 copies of the two-byte
character `é`, then a quote. -/
def failTsText : String := "\x22a" ++ String.mk (List.replicate 24 'é') ++ "\x22"

/-! ### Generic machinery -/

theorem sizeOf_lt_of_mem_childrenOf {c e : Entity} (h : c ∈ e.childrenOf) :
    sizeOf c < sizeOf e := by
  cases e <;> simp only [Entity.childrenOf] at h
  case city => have := List.sizeOf_lt_of_mem h; simp; omega
  case district => have := List.sizeOf_lt_of_mem h; simp; omega
  case building => have := List.sizeOf_lt_of_mem h; simp; omega
  case room => have := List.sizeOf_lt_of_mem h; simp; omega
  case artifact => cases h

/-- Induction over the entity tree through the `childrenOf` edges. -/
theorem Entity.inductionOnChildren {P : Entity → Prop}
    (h : ∀ e, (∀ c, c ∈ Entity.childrenOf e → P c) → P e) : ∀ e, P e
| e => h e (fun c hc => Entity.inductionOnChildren h c)
termination_by e => sizeOf e
decreasing_by exact sizeOf_lt_of_mem_childrenOf hc

theorem countEntitiesL_eq_spec (cs : List Entity)
    (ih : ∀ c ∈ cs, countEntities c =
      ⟨numBuildings c, numRooms c, numArtifacts c, bLocSum c + rLocSum c⟩) :
    countEntitiesL cs =
      ⟨numBuildingsL cs, numRoomsL cs, numArtifactsL cs, bLocSumL cs + rLocSumL cs⟩ := by
  induction cs with
  | nil => rfl
  | cons c cs ihl =>
      have hc := ih c (List.mem_cons_self c cs)
      have hcs := ihl (fun x hx => ih x (List.mem_cons_of_mem c hx))
      simp only [countEntitiesL, hc, hcs, Counts.add, numBuildingsL, numRoomsL,
        numArtifactsL, bLocSumL, rLocSumL, Counts.mk.injEq]
      exact ⟨trivial, trivial, trivial, by omega⟩

/-- The `count_entities` fold computes the specification counts: buildings,
rooms, artifacts, and the summed `loc` of Buildings AND Rooms. -/
theorem countEntities_eq_spec : ∀ e : Entity, countEntities e =
    ⟨numBuildings e, numRooms e, numArtifacts e, bLocSum e + rLocSum e⟩ := by
  apply Entity.inductionOnChildren
  intro e ih
  cases e with
  | city a b c d f g cs =>
      simpa [countEntities, numBuildings, numRooms, numArtifacts, bLocSum, rLocSum] using
        countEntitiesL_eq_spec cs (by simpa [Entity.childrenOf] using ih)
  | district a b c cs =>
      simpa [countEntities, numBuildings, numRooms, numArtifacts, bLocSum, rLocSum] using
        countEntitiesL_eq_spec cs (by simpa [Entity.childrenOf] using ih)
  | building a b c d loc f cs g =>
      have h := countEntitiesL_eq_spec cs (by simpa [Entity.childrenOf] using ih)
      simp only [countEntities, numBuildings, numRooms, numArtifacts, bLocSum, rLocSum, h,
        Counts.mk.injEq]
      exact ⟨trivial, trivial, trivial, by omega⟩
  | room a b c d e2 f g loc i j k cs l =>
      have h := countEntitiesL_eq_spec cs (by simpa [Entity.childrenOf] using ih)
      simp only [countEntities, numBuildings, numRooms, numArtifacts, bLocSum, rLocSum, h,
        Counts.mk.injEq]
      exact ⟨trivial, trivial, trivial, by omega⟩
  | artifact a b c d e2 f g => rfl

theorem countEntitiesL_spec (cs : List Entity) :
    countEntitiesL cs =
      ⟨numBuildingsL cs, numRoomsL cs, numArtifactsL cs, bLocSumL cs + rLocSumL cs⟩ :=
  countEntitiesL_eq_spec cs (fun c _ => countEntities_eq_spec c)

/-! ### Entry-point lemmas (claim C7) -/

theorem findEntryPoint_eq_spec_list (cs : List Entity)
    (ih : ∀ c ∈ cs, entrySearch c = (mainsRestricted c).head?) :
    findEntryPoint cs = (mainsRestrictedL cs).head? := by
  induction cs with
  | nil => rfl
  | cons c cs ihl =>
      have hc := ih c (List.mem_cons_self c cs)
      have hcs := ihl (fun x hx => ih x (List.mem_cons_of_mem c hx))
      simp only [findEntryPoint, hc, hcs, mainsRestrictedL]
      cases mainsRestricted c with
      | nil => simp
      | cons x xs => simp

/-- The `find_entry_point` traversal returns the head of the pre-order list of
`is_main` Rooms reachable without descending into Room children. -/
theorem entrySearch_eq_spec : ∀ e : Entity, entrySearch e = (mainsRestricted e).head? := by
  apply Entity.inductionOnChildren
  intro e ih
  cases e with
  | city a b c d f g cs => rfl
  | district a b c cs =>
      simpa [entrySearch, mainsRestricted] using
        findEntryPoint_eq_spec_list cs (by simpa [Entity.childrenOf] using ih)
  | building a b c d loc f cs g =>
      simpa [entrySearch, mainsRestricted] using
        findEntryPoint_eq_spec_list cs (by simpa [Entity.childrenOf] using ih)
  | room a b c is_main e2 f g h2 i j k cs l =>
      cases is_main <;> rfl
  | artifact a b c d e2 f g => rfl

theorem findEntryPoint_eq_spec (cs : List Entity) :
    findEntryPoint cs = (mainsRestrictedL cs).head? :=
  findEntryPoint_eq_spec_list cs (fun c _ => entrySearch_eq_spec c)

/-! ### Claim theorems C3, C4, C6, C7 -/

/-- Claim C3: in every generated `WorldSeed`, `total_buildings`,
`total_rooms` and `total_artifacts` equal the numbers of Building, Room and
Artifact entities transitively reachable from `cities`, and `total_cities` is
the number of cities. -/
theorem c3_world_meta_totals (groups : List (String × List ParsedFile)) :
    (generateWorldG groups).world_meta.total_buildings
        = numBuildingsL (generateWorldG groups).cities
    ∧ (generateWorldG groups).world_meta.total_rooms
        = numRoomsL (generateWorldG groups).cities
    ∧ (generateWorldG groups).world_meta.total_artifacts
        = numArtifactsL (generateWorldG groups).cities
    ∧ (generateWorldG groups).world_meta.total_cities
        = (generateWorldG groups).cities.length := by
  simp only [generateWorldG, countEntitiesL_spec]
  exact ⟨trivial, trivial, trivial, trivial⟩

/-- Claim C4: the complexity score of every generated `WorldSeed` is exactly
`clamp(min(total_buildings/10, 3) + min(total_rooms/50, 4) +
min(|highways|/100, 3), 1, 10)` and therefore lies in `[1, 10]`
(`f32` arithmetic modelled by exact rationals). -/
theorem c4_complexity_score (groups : List (String × List ParsedFile)) :
    (generateWorldG groups).world_meta.complexity_score
      = max 1 (min
          (min (((generateWorldG groups).world_meta.total_buildings : Rat) / 10) 3
            + min (((generateWorldG groups).world_meta.total_rooms : Rat) / 50) 4
            + min (((generateWorldG groups).highways.length : Rat) / 100) 3) 10)
    ∧ 1 ≤ (generateWorldG groups).world_meta.complexity_score
    ∧ (generateWorldG groups).world_meta.complexity_score ≤ 10 := by
  refine ⟨?_, ?_, ?_⟩
  · simp only [generateWorldG, calculateComplexityScore]
  · simp only [generateWorldG, calculateComplexityScore]
    exact le_max_left 1 _
  · simp only [generateWorldG, calculateComplexityScore]
    exact max_le (by norm_num) (min_le_right _ 10)

/-- Claim C6 (amended): every generated city's stats are the counts of
Buildings, Rooms and Artifacts beneath it, and its `loc` is the summed `loc`
of the Building AND Room entities beneath it (not of the Buildings alone). -/
theorem c6_city_stats (groups : List (String × List ParsedFile)) :
    ∀ c ∈ (generateWorldG groups).cities, c.statsOf = some
      ⟨numBuildingsL c.childrenOf, numRoomsL c.childrenOf, numArtifactsL c.childrenOf,
        bLocSumL c.childrenOf + rLocSumL c.childrenOf⟩ := by
  intro c hc
  simp only [generateWorldG, List.mem_map] at hc
  obtain ⟨g, _, rfl⟩ := hc
  simp only [mkCity, Entity.statsOf, Entity.childrenOf, countEntitiesL_spec]

/-- Claim C7 (amended): every generated city's `entry_point_id` is the first
`is_main` Room in a pre-order traversal that descends into District and
Building children but not into Room children, and it is absent exactly when no
such reachable `is_main` Room exists. -/
theorem c7_entry_point (groups : List (String × List ParsedFile)) :
    ∀ c ∈ (generateWorldG groups).cities,
      c.entryOf = (mainsRestrictedL c.childrenOf).head?
      ∧ (c.entryOf = none ↔ mainsRestrictedL c.childrenOf = []) := by
  intro c hc
  simp only [generateWorldG, List.mem_map] at hc
  obtain ⟨g, _, rfl⟩ := hc
  simp only [mkCity, Entity.entryOf, Entity.childrenOf, findEntryPoint_eq_spec]
  exact ⟨trivial, List.head?_eq_none_iff⟩

/-! ### Symbol-table lemmas (claims C1, C2 and C9) -/

theorem lookupA_mem_vals {l : List (String × String)} {k v : String}
    (h : lookupA l k = some v) : v ∈ l.map Prod.snd := by
  induction l with
  | nil => simp [lookupA] at h
  | cons p rest ih =>
      obtain ⟨k2, v2⟩ := p
      simp only [lookupA] at h
      by_cases hk : k2 = k
      · simp [hk] at h
        simp [h]
      · simp [hk] at h
        simpa using Or.inr (ih h)

theorem lookupIdx_mem_vals {l : List (String × List String)} {k : String}
    {vs : List String} (h : lookupIdx l k = some vs) : vs ∈ l.map Prod.snd := by
  induction l with
  | nil => simp [lookupIdx] at h
  | cons p rest ih =>
      obtain ⟨k2, v2⟩ := p
      simp only [lookupIdx] at h
      by_cases hk : k2 = k
      · simp [hk] at h
        simp [h]
      · simp [hk] at h
        simpa using Or.inr (ih h)

theorem maxByKeyLast_mem_aux (f : α → Nat) (l : List α) :
    ∀ acc x, (l.foldl (fun acc x =>
        match acc with
        | none => some x
        | some y => if f y ≤ f x then some x else some y) acc) = some x →
      acc = some x ∨ x ∈ l := by
  induction l with
  | nil => intro acc x h; exact Or.inl h
  | cons a rest ih =>
      intro acc x h
      simp only [List.foldl_cons] at h
      rcases ih _ x h with h2 | h2
      · cases acc with
        | none =>
            simp at h2
            exact Or.inr (by simp [h2])
        | some y =>
            by_cases hle : f y ≤ f a
            · simp [hle] at h2
              exact Or.inr (by simp [h2])
            · simp [hle] at h2
              exact Or.inl (by simp [h2])
      · exact Or.inr (List.mem_cons_of_mem a h2)

theorem maxByKeyLast_mem {f : α → Nat} {l : List α} {x : α}
    (h : maxByKeyLast f l = some x) : x ∈ l := by
  rcases maxByKeyLast_mem_aux f l none x h with h2 | h2
  · cases h2
  · exact h2

theorem resolve_mem_tableVals {st : SymTable} {s c v : String}
    (h : resolve st s c = some v) : v ∈ tableVals st := by
  unfold resolve at h
  cases h1 : lookupA st.symbols s with
  | some id =>
      rw [h1] at h
      cases h
      exact List.mem_append_left _ (lookupA_mem_vals h1)
  | none =>
      rw [h1] at h
      cases h2 : lookupA st.symbols (c ++ "::" ++ s) with
      | some id =>
          rw [h2] at h
          cases h
          exact List.mem_append_left _ (lookupA_mem_vals h2)
      | none =>
          rw [h2] at h
          cases h3 : lookupIdx st.index s with
          | some cands =>
              rw [h3] at h
              have hvc : v ∈ cands := by
                cases cands with
                | nil => simp [maxByKeyLast] at h
                | cons c1 cs1 =>
                    cases cs1 with
                    | nil =>
                        cases h
                        exact List.mem_singleton_self _
                    | cons c2 cs2 => exact maxByKeyLast_mem h
              have hcands := lookupIdx_mem_vals h3
              refine List.mem_append_right _ ?_
              exact List.mem_flatten.mpr ⟨cands, hcands, hvc⟩
          | none =>
              rw [h3] at h
              cases h

theorem insertA_vals {l : List (String × String)} {k v x : String}
    (h : x ∈ (insertA l k v).map Prod.snd) : x = v ∨ x ∈ l.map Prod.snd := by
  simpa [insertA] using h

theorem pushIdx_vals {l : List (String × List String)} {k v x : String}
    (h : x ∈ ((pushIdx l k v).map Prod.snd).flatten) :
    x = v ∨ x ∈ (l.map Prod.snd).flatten := by
  induction l with
  | nil =>
      simp [pushIdx] at h
      exact Or.inl h
  | cons p rest ih =>
      obtain ⟨k2, vs⟩ := p
      simp only [pushIdx] at h
      by_cases hk : k2 = k
      · simp only [hk, if_pos rfl] at h
        simp at h ⊢
        tauto
      · simp only [if_neg hk] at h
        simp at h ih ⊢
        rcases h with h2 | h2
        · exact Or.inr (Or.inl h2)
        · obtain ⟨l2, ⟨a2, ha2⟩, hx⟩ := h2
          rcases ih l2 a2 ha2 hx with h3 | h3
          · exact Or.inl h3
          · exact Or.inr (Or.inr h3)

theorem indexRB_vals {st : SymTable} {id name x : String}
    (h : x ∈ tableVals (indexRB st id name)) : x = id ∨ x ∈ tableVals st := by
  unfold indexRB at h
  cases hq : semiQualKey id name with
  | some q =>
      rw [hq] at h
      simp only [tableVals] at h ⊢
      rcases List.mem_append.mp h with h2 | h2
      · rcases insertA_vals h2 with h3 | h3
        · exact Or.inl h3
        · rcases insertA_vals h3 with h4 | h4
          · exact Or.inl h4
          · exact Or.inr (List.mem_append_left _ h4)
      · rcases pushIdx_vals h2 with h3 | h3
        · exact Or.inl h3
        · exact Or.inr (List.mem_append_right _ h3)
  | none =>
      rw [hq] at h
      simp only [tableVals] at h ⊢
      rcases List.mem_append.mp h with h2 | h2
      · rcases insertA_vals h2 with h3 | h3
        · exact Or.inl h3
        · exact Or.inr (List.mem_append_left _ h3)
      · rcases pushIdx_vals h2 with h3 | h3
        · exact Or.inl h3
        · exact Or.inr (List.mem_append_right _ h3)

theorem indexEntityL_vals_aux (cs : List Entity)
    (ih : ∀ c ∈ cs, ∀ st x, x ∈ tableVals (indexEntity st c) →
      x ∈ tableVals st ∨ x ∈ rbIds c) :
    ∀ st x, x ∈ tableVals (indexEntityL st cs) → x ∈ tableVals st ∨ x ∈ rbIdsL cs := by
  induction cs with
  | nil => intro st x h; exact Or.inl h
  | cons c rest ihl =>
      intro st x h
      simp only [indexEntityL] at h
      rcases ihl (fun e he => ih e (List.mem_cons_of_mem c he)) _ x h with h2 | h2
      · rcases ih c (List.mem_cons_self c rest) st x h2 with h3 | h3
        · exact Or.inl h3
        · exact Or.inr (by simp [rbIdsL]; exact Or.inl h3)
      · exact Or.inr (by simp [rbIdsL]; exact Or.inr h2)

/-- Indexing an entity only ever stores IDs of Rooms and Buildings of that
entity into the symbol table. -/
theorem indexEntity_vals : ∀ e : Entity, ∀ st x, x ∈ tableVals (indexEntity st e) →
    x ∈ tableVals st ∨ x ∈ rbIds e := by
  apply Entity.inductionOnChildren
  intro e ih
  cases e with
  | city a b c d f g cs =>
      intro st x h
      simpa [rbIds] using
        indexEntityL_vals_aux cs (by simpa [Entity.childrenOf] using ih) st x h
  | district a b c cs =>
      intro st x h
      simpa [rbIds] using
        indexEntityL_vals_aux cs (by simpa [Entity.childrenOf] using ih) st x h
  | building a b c d loc f cs g =>
      intro st x h
      rcases indexEntityL_vals_aux cs (by simpa [Entity.childrenOf] using ih) _ x h with
        h2 | h2
      · rcases indexRB_vals h2 with h3 | h3
        · exact Or.inr (by simp [rbIds, h3])
        · exact Or.inl h3
      · exact Or.inr (by simp [rbIds]; exact Or.inr h2)
  | room a b c d e2 f g h2 i j k cs l =>
      intro st x h
      rcases indexEntityL_vals_aux cs (by simpa [Entity.childrenOf] using ih) _ x h with
        h3 | h3
      · rcases indexRB_vals h3 with h4 | h4
        · exact Or.inr (by simp [rbIds, h4])
        · exact Or.inl h4
      · exact Or.inr (by simp [rbIds]; exact Or.inr h3)
  | artifact a b c d e2 f g =>
      intro st x h
      exact Or.inl h

theorem indexCities_vals {cities : List Entity} {x : String}
    (h : x ∈ tableVals (indexCities cities)) : x ∈ rbIdsL cities := by
  rcases indexEntityL_vals_aux cities
      (fun c _ => indexEntity_vals c) SymTable.empty x h with h2 | h2
  · simp [tableVals, SymTable.empty] at h2
  · exact h2

/-! ### Route-collection lemmas (claim C1) -/

theorem collectCallsL_mem (cs : List Entity)
    (ih : ∀ c ∈ cs, ∀ p ∈ collectCalls c, p.1 ∈ rbIds c) :
    ∀ p ∈ collectCallsL cs, p.1 ∈ rbIdsL cs := by
  induction cs with
  | nil => intro p h; cases h
  | cons c rest ihl =>
      intro p h
      simp only [collectCallsL] at h
      rcases List.mem_append.mp h with h2 | h2
      · have := ih c (List.mem_cons_self c rest) p h2
        simp only [rbIdsL]
        exact List.mem_append_left _ this
      · have := ihl (fun e he => ih e (List.mem_cons_of_mem c he)) p h2
        simp only [rbIdsL]
        exact List.mem_append_right _ this

/-- Every collected call pair's `from` component is the ID of a Room of the
traversed entity (hence of some Room or Building). -/
theorem collectCalls_mem : ∀ e : Entity, ∀ p ∈ collectCalls e, p.1 ∈ rbIds e := by
  apply Entity.inductionOnChildren
  intro e ih
  cases e with
  | city a b c d f g cs =>
      intro p h
      simpa [rbIds] using
        collectCallsL_mem cs (by simpa [Entity.childrenOf] using ih) p h
  | district a b c cs =>
      intro p h
      simpa [rbIds] using
        collectCallsL_mem cs (by simpa [Entity.childrenOf] using ih) p h
  | building a b c d loc f cs g =>
      intro p h
      have := collectCallsL_mem cs (by simpa [Entity.childrenOf] using ih) p
        (by simpa [collectCalls] using h)
      simp [rbIds]
      exact Or.inr this
  | room a b c d e2 f g h2 i j k cs l =>
      intro p h
      simp only [collectCalls] at h
      rcases List.mem_append.mp h with h3 | h3
      · rcases List.mem_map.mp h3 with ⟨t, _, rfl⟩
        simp [rbIds]
      · have := collectCallsL_mem cs (by simpa [Entity.childrenOf] using ih) p h3
        simp [rbIds]
        exact Or.inr this
  | artifact a b c d e2 f g =>
      intro p h
      cases h

theorem collectImportsL_mem (cs : List Entity)
    (ih : ∀ c ∈ cs, ∀ p ∈ collectImports c, p.1 ∈ rbIds c) :
    ∀ p ∈ collectImportsL cs, p.1 ∈ rbIdsL cs := by
  induction cs with
  | nil => intro p h; cases h
  | cons c rest ihl =>
      intro p h
      simp only [collectImportsL] at h
      rcases List.mem_append.mp h with h2 | h2
      · have := ih c (List.mem_cons_self c rest) p h2
        simp only [rbIdsL]
        exact List.mem_append_left _ this
      · have := ihl (fun e he => ih e (List.mem_cons_of_mem c he)) p h2
        simp only [rbIdsL]
        exact List.mem_append_right _ this

/-- Every collected import pair's `from` component is the ID of a Building of
the traversed entity. -/
theorem collectImports_mem : ∀ e : Entity, ∀ p ∈ collectImports e, p.1 ∈ rbIds e := by
  apply Entity.inductionOnChildren
  intro e ih
  cases e with
  | city a b c d f g cs =>
      intro p h
      simpa [rbIds] using
        collectImportsL_mem cs (by simpa [Entity.childrenOf] using ih) p h
  | district a b c cs =>
      intro p h
      simpa [rbIds] using
        collectImportsL_mem cs (by simpa [Entity.childrenOf] using ih) p h
  | building a b c d loc f cs g =>
      intro p h
      simp only [collectImports] at h
      rcases List.mem_append.mp h with h3 | h3
      · rcases List.mem_map.mp h3 with ⟨t, _, rfl⟩
        simp [rbIds]
      · have := collectImportsL_mem cs (by simpa [Entity.childrenOf] using ih) p h3
        simp [rbIds]
        exact Or.inr this
  | room a b c d e2 f g h2 i j k cs l =>
      intro p h
      have := collectImportsL_mem cs (by simpa [Entity.childrenOf] using ih) p
        (by simpa [collectImports] using h)
      simp [rbIds]
      exact Or.inr this
  | artifact a b c d e2 f g =>
      intro p h
      cases h

theorem cityRoutePairs_from_mem {city : Entity} {q : String × String × RouteType}
    (h : q ∈ cityRoutePairs city) : q.1 ∈ rbIds city := by
  unfold cityRoutePairs at h
  rcases List.mem_append.mp h with h2 | h2
  · rcases List.mem_map.mp h2 with ⟨p, hp, rfl⟩
    exact collectCalls_mem city p hp
  · rcases List.mem_map.mp h2 with ⟨p, hp, rfl⟩
    exact collectImports_mem city p hp

theorem mem_rbIdsL_of_mem {c : Entity} {cs : List Entity} {x : String}
    (hc : c ∈ cs) (hx : x ∈ rbIds c) : x ∈ rbIdsL cs := by
  induction cs with
  | nil => cases hc
  | cons d rest ih =>
      simp only [rbIdsL]
      rcases List.mem_cons.mp hc with h2 | h2
      · subst h2
        exact List.mem_append_left _ hx
      · exact List.mem_append_right _ (ih h2)

theorem numberRoutes_mem {pairs : List (String × String × RouteType)} {r : Route} :
    ∀ n, r ∈ numberRoutes n pairs → (r.from_id, r.to_id, r.route_type) ∈ pairs := by
  induction pairs with
  | nil => intro n h; cases h
  | cons q rest ih =>
      intro n h
      obtain ⟨f, t, ty⟩ := q
      simp only [numberRoutes] at h
      rcases List.mem_cons.mp h with h2 | h2
      · subst h2
        simp
      · exact List.mem_cons_of_mem _ (ih _ h2)

theorem resolveRoutes_mem {tbl : SymTable} {routes : List Route} {r : Route}
    (h : r ∈ resolveRoutes tbl routes) :
    ∃ r0 ∈ routes, r.from_id = r0.from_id ∧ r.route_type = r0.route_type ∧
      resolve tbl r0.to_id r0.from_id = some r.to_id := by
  unfold resolveRoutes at h
  rcases List.mem_filterMap.mp h with ⟨r0, hr0, heq⟩
  rcases Option.map_eq_some'.mp heq with ⟨v, hv, rfl⟩
  exact ⟨r0, hr0, rfl, rfl, hv⟩

/-- Claim C1: after resolution, every highway's `from_id` and `to_id` are IDs
of Rooms or Buildings present in the cities of the same `WorldSeed`
(unresolvable routes having been dropped by `filter_map`). -/
theorem c1_highways_resolved (groups : List (String × List ParsedFile)) :
    ∀ r ∈ (generateWorldG groups).highways,
      r.from_id ∈ rbIdsL (generateWorldG groups).cities
      ∧ r.to_id ∈ rbIdsL (generateWorldG groups).cities := by
  intro r hr
  simp only [generateWorldG] at hr ⊢
  rcases resolveRoutes_mem hr with ⟨r0, hr0, hfrom, _, hres⟩
  constructor
  · rw [hfrom]
    have hpair := numberRoutes_mem 0 hr0
    rcases List.mem_flatMap.mp hpair with ⟨city, hcity, hq⟩
    have := cityRoutePairs_from_mem hq
    exact mem_rbIdsL_of_mem hcity this
  · exact indexCities_vals (resolve_mem_tableVals hres)

/-- Witness for C1 at spec scenario 1: the single resolved highway of the
`src/main.rs` world runs between two indexed Room IDs. -/
theorem c1_highways_resolved_witness :
    ( "src/main.rs::main" : String) ∈ rbIdsL (generateWorldG groupsMainRs).cities
    ∧ ( "src/main.rs::helper" : String) ∈ rbIdsL (generateWorldG groupsMainRs).cities :=
  c1_highways_resolved groupsMainRs
    { id := "route_0", from_id := "src/main.rs::main", to_id := "src/main.rs::helper",
      route_type := RouteType.functionCall, bidirectional := false, metadata := none }
    (by decide)

/-! ### The resolver tie-break (claim C2) -/

theorem getLast?_some_mem {l : List α} {x : α} (h : l.getLast? = some x) : x ∈ l := by
  obtain ⟨hh, rfl⟩ := List.mem_getLast?_eq_getLast (show x ∈ l.getLast? by simp [Option.mem_def, h])
  exact List.getLast_mem hh

theorem isMaxIn_cons (f : α → Nat) (a z : α) (l : List α) :
    isMaxIn f (a :: l) z = (decide (f a ≤ f z) && isMaxIn f l z) := by
  simp [isMaxIn, List.all_cons]

theorem lastMaxBy_cons_cons (f : α → Nat) (y x : α) (xs : List α) :
    lastMaxBy f (y :: x :: xs) =
      if f y ≤ f x then lastMaxBy f (x :: xs) else lastMaxBy f (y :: xs) := by
  by_cases h : f y ≤ f x
  · rw [if_pos h]
    unfold lastMaxBy
    have hpq : ∀ z ∈ y :: x :: xs, isMaxIn f (y :: x :: xs) z = isMaxIn f (x :: xs) z := by
      intro z _
      rw [isMaxIn_cons, isMaxIn_cons]
      by_cases h2 : f x ≤ f z
      · simp [h2, le_trans h h2]
      · simp [h2]
    rw [List.filter_congr hpq, List.filter_cons]
    by_cases hy : isMaxIn f (x :: xs) y = true
    · simp only [hy, if_true]
      have hy2 := hy
      rw [isMaxIn_cons] at hy2
      have hall : isMaxIn f xs y = true := (Bool.and_eq_true_iff.mp hy2).2
      have hx : isMaxIn f (x :: xs) x = true := by
        rw [isMaxIn_cons]
        refine Bool.and_eq_true_iff.mpr ⟨by simp, ?_⟩
        unfold isMaxIn at hall ⊢
        refine List.all_eq_true.mpr (fun n hn => ?_)
        have := List.all_eq_true.mp hall n hn
        simpa using le_trans (by simpa using this) h
      rw [List.filter_cons, if_pos (by simp [hx])]
      exact List.getLast?_cons_cons
    · rw [if_neg hy]
  · rw [if_neg h]
    have hlt : f x < f y := lt_of_not_le h
    unfold lastMaxBy
    have hpq : ∀ z ∈ y :: x :: xs,
        isMaxIn f (y :: x :: xs) z = isMaxIn f (y :: xs) z := by
      intro z _
      rw [isMaxIn_cons, isMaxIn_cons, isMaxIn_cons (a := y) (l := xs)]
      by_cases h2 : f y ≤ f z
      · simp [h2, le_trans (le_of_lt hlt) h2]
      · simp [h2]
    rw [List.filter_congr hpq]
    have hx : isMaxIn f (y :: xs) x = false := by
      rw [isMaxIn_cons]
      simp only [Bool.and_eq_false_iff]
      exact Or.inl (by simpa using h)
    rw [List.filter_cons, List.filter_cons (x := x), hx]
    simp only [Bool.false_eq_true, if_false]
    rw [List.filter_cons (x := y)]

theorem foldl_step_eq_lastMaxBy (f : α → Nat) :
    ∀ (l : List α) (y : α),
      l.foldl (fun acc x =>
        match acc with
        | none => some x
        | some y => if f y ≤ f x then some x else some y) (some y)
      = lastMaxBy f (y :: l) := by
  intro l
  induction l with
  | nil =>
      intro y
      simp [lastMaxBy, List.filter_cons, isMaxIn]
  | cons x xs ih =>
      intro y
      rw [lastMaxBy_cons_cons]
      by_cases h : f y ≤ f x
      · simp only [List.foldl_cons, if_pos h]
        exact ih x
      · simp only [List.foldl_cons, if_neg h]
        exact ih y

/-- `Iterator::max_by_key` (last maximum) coincides with the specification
reading: the last list element attaining the maximal key. -/
theorem maxByKeyLast_eq_lastMaxBy (f : α → Nat) (l : List α) :
    maxByKeyLast f l = lastMaxBy f l := by
  cases l with
  | nil => rfl
  | cons y xs =>
      unfold maxByKeyLast
      simp only [List.foldl_cons]
      exact foldl_step_eq_lastMaxBy f xs y

/-- Claim C2 (amended): `SymbolTable::resolve` implements exactly this
procedure: look the raw symbol up in the combined exact/semi-qualified map and
return the mapped ID; else the context-qualified key likewise; else choose
among the short-name candidates the LAST one (in iteration order) with the
longest common character prefix against the context; else fail. -/
theorem c2_resolve_spec (st : SymTable) (S C : String) :
    resolve st S C = resolveSpecLast st S C := by
  unfold resolve resolveSpecLast
  cases lookupA st.symbols S with
  | some v => rfl
  | none =>
      cases lookupA st.symbols (C ++ "::" ++ S) with
      | some v => rfl
      | none =>
          cases lookupIdx st.index S with
          | none => rfl
          | some cands =>
              cases cands with
              | nil => rfl
              | cons c1 rest =>
                  cases rest with
                  | nil => simp [lastMaxBy, List.filter_cons, isMaxIn]
                  | cons c2 rest2 => exact maxByKeyLast_eq_lastMaxBy _ _

/-- Counterexample for C2 as stated: with two candidate `foo` definitions in
`aa/x.rs` and `ab/y.rs` and the caller in `zz/caller.rs` (zero common prefix
with both), the generated world resolves the call to the LAST candidate
`ab/y.rs::foo`, while the claim's procedure (first candidate on ties) yields
`aa/x.rs::foo`. -/
theorem c2_counterexample :
    ((generateWorldG groupsAmbiguous).highways.map (fun r => (r.from_id, r.to_id))
        = [( "zz/caller.rs::main", "ab/y.rs::foo")])
    ∧ resolveClaimed (rbIdsL (generateWorldG groupsAmbiguous).cities)
        (lookupIdx (indexCities (generateWorldG groupsAmbiguous).cities).index)
        "foo" "zz/caller.rs::main" = some "aa/x.rs::foo"
    ∧ ( "ab/y.rs::foo" : String) ≠ "aa/x.rs::foo" := by decide

/-! ### Dominant language (claim C9) -/

theorem maxByKeyLast_isSome_aux (f : α → Nat) :
    ∀ (l : List α) (y : α), ∃ z, l.foldl (fun acc x =>
      match acc with
      | none => some x
      | some y => if f y ≤ f x then some x else some y) (some y) = some z := by
  intro l
  induction l with
  | nil => intro y; exact ⟨y, rfl⟩
  | cons x xs ih =>
      intro y
      simp only [List.foldl_cons]
      by_cases h : f y ≤ f x
      · simpa [h] using ih x
      · simpa [h] using ih y

theorem maxByKeyLast_isSome {f : α → Nat} {l : List α} (h : l ≠ []) :
    ∃ z, maxByKeyLast f l = some z := by
  cases l with
  | nil => exact absurd rfl h
  | cons y xs =>
      unfold maxByKeyLast
      simp only [List.foldl_cons]
      exact maxByKeyLast_isSome_aux f xs y

theorem maxByKeyLast_isMax {f : α → Nat} {l : List α} {x : α}
    (h : maxByKeyLast f l = some x) : ∀ y ∈ l, f y ≤ f x := by
  rw [maxByKeyLast_eq_lastMaxBy] at h
  unfold lastMaxBy at h
  have hmem := getLast?_some_mem h
  have hprop := (List.mem_filter.mp hmem).2
  intro y hy
  unfold isMaxIn at hprop
  have := List.all_eq_true.mp hprop (f y) (List.mem_map.mpr ⟨y, hy, rfl⟩)
  simpa using this

/-- Claim C9 (amended): within one run, `dominant_language` is a language of
the grouping whose summed file LOC is maximal; which maximiser is chosen on
ties follows the hash-map iteration order (the group order), and so is not
stable across runs. -/
theorem c9_dominant_is_max (groups : List (String × List ParsedFile))
    (h : groups ≠ []) :
    ∃ n, ((generateWorldG groups).world_meta.dominant_language, n) ∈ langLocPairs groups
      ∧ ∀ p ∈ langLocPairs groups, p.2 ≤ n := by
  have hne : langLocPairs groups ≠ [] := by
    cases hg : groups with
    | nil => exact absurd hg h
    | cons g rest => simp [langLocPairs, hg]
  obtain ⟨z, hz⟩ := maxByKeyLast_isSome (f := fun p : String × Nat => p.2) hne
  have hdom : (generateWorldG groups).world_meta.dominant_language = z.1 := by
    simp only [generateWorldG, hz]
  refine ⟨z.2, ?_, fun p hp => maxByKeyLast_isMax hz p hp⟩
  rw [hdom]
  simpa using maxByKeyLast_mem hz

/-- Witness for C9 (amended) at a concrete two-language grouping. -/
theorem c9_dominant_is_max_witness :
    ∃ n, ((generateWorldG groupsTie).world_meta.dominant_language, n) ∈ langLocPairs groupsTie
      ∧ ∀ p ∈ langLocPairs groupsTie, p.2 ≤ n :=
  c9_dominant_is_max groupsTie (by simp [groupsTie])

/-- Counterexample for C9 as stated: the same input grouped in the two
hash-map iteration orders (both realisable on the same directory, since Rust
`HashMap` iteration order is random per instance) yields different
`dominant_language` values on an LOC tie: the claimed determinism modulo
timestamp, city order and route numbering fails. -/
theorem c9_counterexample :
    (generateWorldG groupsTie).world_meta.dominant_language = "py"
    ∧ (generateWorldG groupsTieRev).world_meta.dominant_language = "rs"
    ∧ groupsTieRev = groupsTie.reverse
    ∧ ( "py" : String) ≠ "rs" := by
  exact ⟨by decide, by decide, rfl, by decide⟩

/-- Witness for C6 (amended) at a concrete one-city world. -/
theorem c6_city_stats_witness :
    (mkCity "rs" [fileLocNested]).statsOf = some
      ⟨numBuildingsL (mkCity "rs" [fileLocNested]).childrenOf,
        numRoomsL (mkCity "rs" [fileLocNested]).childrenOf,
        numArtifactsL (mkCity "rs" [fileLocNested]).childrenOf,
        bLocSumL (mkCity "rs" [fileLocNested]).childrenOf
          + rLocSumL (mkCity "rs" [fileLocNested]).childrenOf⟩ :=
  c6_city_stats groupsLocNested _ (by simp [generateWorldG, groupsLocNested])

/-- Counterexample for C6 as stated: a city holding a 10-line file Building
with a 4-line Room inside gets `stats.loc = 14` (Building plus Room LOC),
while the summed Building LOC alone is 10. -/
theorem c6_counterexample :
    ((generateWorldG groupsLocNested).cities.map Entity.statsOf)
      = [some ⟨1, 1, 0, 14⟩]
    ∧ ((generateWorldG groupsLocNested).cities.map bLocSum) = [10]
    ∧ (14 : Nat) ≠ 10 := by decide

/-- Witness for C7 (amended) at spec scenario 1. -/
theorem c7_entry_point_witness :
    ((mkCity "rs" [fileMainRs]).entryOf
        = (mainsRestrictedL (mkCity "rs" [fileMainRs]).childrenOf).head?)
    ∧ ((mkCity "rs" [fileMainRs]).entryOf = none
        ↔ mainsRestrictedL (mkCity "rs" [fileMainRs]).childrenOf = []) :=
  c7_entry_point groupsMainRs _ (by simp [generateWorldG, groupsMainRs])

/-- Counterexample for C7 as stated: a city whose only `is_main` Room sits
inside a non-main Room has `entry_point_id = none` although a full pre-order
traversal does find an `is_main` Room (`find_entry_point` never descends into
Room children). -/
theorem c7_counterexample :
    ((generateWorldG groupsNestedMain).cities.map Entity.entryOf) = [none]
    ∧ ((generateWorldG groupsNestedMain).cities.map containsMainRoom) = [true] := by decide

/-! ### Value-hint truncation (claims C8 and C10) -/

theorem one_le_csize (c : Char) : 1 ≤ csize c := by
  unfold csize
  split
  · exact le_refl 1
  · split
    · omega
    · split <;> omega

theorem length_le_utf8Len (l : List Char) : l.length ≤ (l.map csize).sum := by
  induction l with
  | nil => simp
  | cons c cs ih =>
      simp only [List.length_cons, List.map_cons, List.sum_cons]
      have := one_le_csize c
      omega

theorem takeBytesChars_length : ∀ (l : List Char) (n : Nat) (out : List Char),
    takeBytesChars n l = some out → out.length ≤ n := by
  intro l
  induction l with
  | nil =>
      intro n out h
      cases n with
      | zero => cases h; simp
      | succ m => cases h
  | cons c cs ih =>
      intro n out h
      cases n with
      | zero => cases h; simp
      | succ m =>
          simp only [takeBytesChars] at h
          by_cases hc : csize c ≤ m + 1
          · rw [if_pos hc] at h
            rcases Option.map_eq_some'.mp h with ⟨out2, hout2, rfl⟩
            have h2 := ih _ _ hout2
            have h3 := one_le_csize c
            simp only [List.length_cons]
            omega
          · rw [if_neg hc] at h
            cases h

/-- Claim C8 (amended): the Rust/Python/Java/JavaScript value-hint closure
caps the hint at 30 characters, truncating to 27 characters plus `...` exactly
when the UTF-8 byte length exceeds 30; the TypeScript closure instead keeps
the text whenever its byte length is at most 40 and otherwise slices 37 bytes
and appends `...`, so its hints are bounded by 40 characters, not 30; and the
C enumerator hint is the raw initializer text, not truncated at all. -/
theorem c8_value_hint_truncation (v : String) :
    (truncateHint30 v).data.length ≤ 30
    ∧ (utf8Len v ≤ 30 → truncateHint30 v = v)
    ∧ (utf8Len v > 30 → truncateHint30 v = String.mk (v.data.take 27) ++ "...")
    ∧ (utf8Len v ≤ 40 → tsHint v = some v)
    ∧ (∀ r, tsHint v = some r → r.data.length ≤ 40)
    ∧ cEnumValueHint v = v := by
  refine ⟨?_, ?_, ?_, ?_, ?_, rfl⟩
  · unfold truncateHint30
    by_cases h : utf8Len v > 30
    · rw [if_pos h]
      rw [String.data_append]
      simp only [String.mk]
      have : (v.data.take 27).length ≤ 27 := by
        simpa using List.length_take_le 27 v.data
      simp only [List.length_append, List.length_cons, List.length_nil]
      omega
    · rw [if_neg h]
      have h2 := length_le_utf8Len v.data
      unfold utf8Len at h
      omega
  · intro h
    unfold truncateHint30
    rw [if_neg (by omega)]
  · intro h
    unfold truncateHint30
    rw [if_pos h]
  · intro h
    unfold tsHint
    rw [if_neg (by omega)]
  · intro r h
    unfold tsHint at h
    by_cases h2 : utf8Len v > 40
    · rw [if_pos h2] at h
      rcases Option.map_eq_some'.mp h with ⟨cs, hcs, rfl⟩
      have h3 := takeBytesChars_length _ _ _ hcs
      rw [String.data_append]
      simp only [String.mk, List.length_append, List.length_cons, List.length_nil]
      omega
    · rw [if_neg h2] at h
      cases h
      have h3 := length_le_utf8Len v.data
      unfold utf8Len at h2
      omega

/-- Witness for C8 (amended) at concrete strings. -/
theorem c8_value_hint_truncation_witness :
    (truncateHint30 "abc").data.length ≤ 30
    ∧ truncateHint30 "abc" = "abc"
    ∧ truncateHint30 text35 = String.mk (text35.data.take 27) ++ "..."
    ∧ tsHint "abc" = some "abc"
    ∧ ( "abc" : String).data.length ≤ 40
    ∧ cEnumValueHint text35 = text35 :=
  ⟨(c8_value_hint_truncation "abc").1,
    (c8_value_hint_truncation "abc").2.1 (by decide),
    (c8_value_hint_truncation text35).2.2.1 (by decide),
    (c8_value_hint_truncation "abc").2.2.2.1 (by decide),
    (c8_value_hint_truncation "abc").2.2.2.2.1 "abc" (by decide),
    (c8_value_hint_truncation text35).2.2.2.2.2⟩

/-- Counterexample for C8 as stated: the TypeScript value-hint closure leaves
a 35-character ASCII initializer untruncated and without an ellipsis marker,
exceeding the claimed 30-character cap; the C enumerator hint likewise keeps
the 35-character text whole. -/
theorem c8_counterexample :
    tsHint text35 = some text35 ∧ cEnumValueHint text35 = text35
    ∧ text35.data.length = 35 ∧ ¬(35 ≤ 30) := by decide

/-- Claim C10: the TypeScript value-hint slice `&text[..37]` is evaluated on a
51-byte initializer whose byte 37 falls inside a two-byte character, so the
byte-boundary check fails: in Rust this is an index panic that aborts the
whole `generate_world` job (the panic propagates out of the rayon worker),
contradicting the never-fail policy. -/
theorem c10_ts_hint_panics :
    utf8Len failTsText > 40
    ∧ takeBytesChars 37 failTsText.data = none
    ∧ tsHint failTsText = none := by decide

/-! ### Parent-child ID discipline (claim C5) -/

end NB
